import Mathlib

/-!
Shallow embedding of the mana-evaluation and catalog-client logic of the
mtg-counterplay repository (src/lib/scryfall.ts and the server fetch module).
Strings are modelled as `List Char`; JS string arrays as `List (List Char)`;
the JS number `cmc` as a rational; `Math.floor` as `Rat.floor`.
-/

namespace MtgCounterplay

/-- Model of a card face record (name, mana_cost, oracle_text). -/
structure CardFace where
  name : List Char
  mana_cost : List Char
  oracle_text : List Char
deriving DecidableEq

/-- Model of a ScryfallCard record. `card_faces = []` models an absent or
empty `card_faces` array (in JS, `card.card_faces && card.card_faces[0]`
is falsy in both cases); `mana_cost = []` models an absent or empty cost
string (both falsy). `isCounterspell` defaults to `false`, modelling the
absent optional flag before the client sets it. -/
structure ScryfallCard where
  id : List Char
  name : List Char
  mana_cost : List Char
  cmc : ℚ
  type_line : List Char
  oracle_text : List Char
  colors : List (List Char)
  color_identity : List (List Char)
  rarity : List Char
  card_faces : List CardFace
  isCounterspell : Bool := false
deriving DecidableEq

/-- Scanner state machine modelling `manaCost.match` with the global regex
"open brace, one or more non-close-brace characters, close brace":
outside a token (second argument `none`) an open brace starts a token;
inside a token (second argument `some acc`, `acc` the content read so far)
the first close brace ends it, and a token is emitted only when the content
is non-empty, exactly as the regex requires at least one content character.
Scanning resumes after the close brace, matching the regex engine's
left-to-right, non-overlapping search. -/
def scanManaCost : List Char → Option (List Char) → List (List Char)
  | [], _ => []
  | c :: cs, none =>
    if c = '{' then scanManaCost cs (some []) else scanManaCost cs none
  | c :: cs, some acc =>
    if c = '}' then
      if acc = [] then scanManaCost cs none
      else ('{' :: acc ++ ['}']) :: scanManaCost cs none
    else scanManaCost cs (some (acc ++ [c]))

/-- Model of `parseManaSymbols` (scryfall.ts line 82): extract all bracketed
mana-symbol tokens from a cost string; no matches gives the empty list. -/
def parseManaSymbols (manaCost : List Char) : List (List Char) :=
  scanManaCost manaCost none

/-- Model of `getCardColors` (scryfall.ts line 88). -/
def getCardColors (card : ScryfallCard) : List (List Char) :=
  if card.colors ≠ [] then card.colors
  else if card.color_identity ≠ [] then card.color_identity
  else [['C']]

/-- Shared prologue of `countPhyrexianMana` and `isCardCastableWithColors`:
take `card.mana_cost`, and when that is falsy take the first face's
`mana_cost` if a face exists, else the empty string. -/
def resolveManaCost (card : ScryfallCard) : List Char :=
  if card.mana_cost ≠ [] then card.mana_cost
  else
    match card.card_faces with
    | f :: _ => f.mana_cost
    | [] => []

/-- Model of `symbol.slice(1, -1)`: strip the surrounding braces. -/
def symbolContent (symbol : List Char) : List Char :=
  (symbol.drop 1).dropLast

/-- Model of `symbolContent.includes of the two-character needle slash-P`. -/
def hasSlashP : List Char → Bool
  | [] => false
  | '/' :: 'P' :: _ => true
  | _ :: rest => hasSlashP rest

/-- Model of `countPhyrexianMana` (scryfall.ts line 99): count the parsed
symbols whose content contains the slash-P substring. -/
def countPhyrexianMana (card : ScryfallCard) : ℕ :=
  let manaCost := resolveManaCost card
  if manaCost = [] then 0
  else (parseManaSymbols manaCost).countP fun s => hasSlashP (symbolContent s)

/-- Model of `cardMatchesManaValue` (scryfall.ts line 124). The target is a
JS number, modelled as a rational; `Math.floor(card.cmc)` is `Rat.floor`. -/
def cardMatchesManaValue (card : ScryfallCard) (targetManaValue : ℚ) : Bool :=
  let cmc : ℤ := Rat.floor card.cmc
  let phyrexianCount : ℤ := (countPhyrexianMana card : ℤ)
  let minMana : ℤ := cmc - phyrexianCount
  let maxMana : ℤ := cmc
  if targetManaValue = 10 then decide (10 ≤ cmc)
  else decide ((minMana : ℚ) ≤ targetManaValue) && decide (targetManaValue ≤ (maxMana : ℚ))

/-- Model of the JS test of the regex "exactly one of W U B R G" on a string. -/
def isColorStr (s : List Char) : Bool :=
  match s with
  | [c] => c = 'W' || c = 'U' || c = 'B' || c = 'R' || c = 'G'
  | _ => false

/-- Model of `String.prototype.split` with the single-character slash
separator, e.g. splitting "a/b" into "a" and "b" and keeping empty pieces. -/
def splitSlash : List Char → List (List Char)
  | [] => [[]]
  | c :: cs =>
    if c = '/' then [] :: splitSlash cs
    else
      match splitSlash cs with
      | [] => [[c]]
      | p :: ps => (c :: p) :: ps

/-- One iteration of the symbol loop of `isCardCastableWithColors`
(scryfall.ts lines 156-195), returning whether the loop continues without
`return false` for this symbol's content:
pure generic numbers and X are skipped; a content containing a slash takes
the hybrid branch, which fails exactly when it has at least one
single-color-letter part and none of them is available; a slash-free
content ending in P whose prefix (before the last two characters) is a
color letter is skipped; a bare color letter requires availability; any
other content falls through the loop body without failing. -/
def symbolPayable (content : List Char) (availableColors : List (List Char)) : Bool :=
  if (content ≠ [] && content.all Char.isDigit) || content = ['X'] then true
  else if content.contains '/' then
    let parts := splitSlash content
    let colorParts := parts.filter isColorStr
    if colorParts ≠ [] then colorParts.any fun c => availableColors.contains c
    else true
  else if content.getLast? = some 'P' && isColorStr (content.dropLast.dropLast) then true
  else if isColorStr content then availableColors.contains content
  else true

/-- Model of `isCardCastableWithColors` (scryfall.ts line 144): an absent
cost is castable; otherwise every parsed symbol must pass the loop body. -/
def isCardCastableWithColors (card : ScryfallCard) (availableColors : List (List Char)) : Bool :=
  let manaCost := resolveManaCost card
  if manaCost = [] then true
  else (parseManaSymbols manaCost).all fun s => symbolPayable (symbolContent s) availableColors

/-! Catalog client (the server fetch module). A paginated search is modelled
by the list of successive responses the remote service returns along the
next_page chain: each loop iteration consumes the next response, and the
loop also ends when that list is exhausted (a finite server interaction).
`next_page` is a Bool recording whether the response carries a next-page
URL (the JS `data.next_page ?? null` being non-null). -/

/-- Model of one Scryfall list response for a card search page. -/
structure PageResponse where
  ok : Bool
  status : ℕ
  has_more : Bool
  next_page : Bool
  data : List ScryfallCard
deriving DecidableEq

/-- Error message of the main card search loop. -/
def failCardsMsg : List Char := "Failed to fetch cards".toList

/-- Error message of the special-guests card search loop. -/
def failSpgMsg : List Char := "Failed to fetch Special Guests cards".toList

/-- Error message of the counterspell id search loop. -/
def failCsMsg : List Char := "Failed to fetch counterspells".toList

/-- Error message of the special-guests counterspell id search loop. -/
def failSpgCsMsg : List Char := "Failed to fetch Special Guests counterspells".toList

/-- Model of the pagination loop shared by `fetchInstantsFromSet` and
`fetchSpecialGuestsFromSet`: accumulate `data` across pages while the
response is ok and `has_more` with a next-page pointer; a non-ok response
with status 404 returns the empty collection for the whole function
(`Except.ok none` marks that early return); any other non-ok response
throws `msg`. -/
def cardSearchLoop (msg : List Char) :
    List PageResponse → List ScryfallCard → Except (List Char) (Option (List ScryfallCard))
  | [], allCards => .ok (some allCards)
  | r :: rest, allCards =>
    if r.ok then
      let allCards2 := allCards ++ r.data
      if r.has_more && r.next_page then cardSearchLoop msg rest allCards2
      else .ok (some allCards2)
    else if r.status = 404 then .ok none
    else .error msg

/-- Model of `ids.add` over a page of cards: JS Set insertion order
semantics (append an id unless already present). -/
def addIds (ids : List (List Char)) (cards : List ScryfallCard) : List (List Char) :=
  cards.foldl (fun acc c => if acc.contains c.id then acc else acc ++ [c.id]) ids

/-- Model of the pagination loop shared by `fetchCounterspellIds` and
`fetchSpecialGuestsCounterspellIds`: accumulate card ids into a set across
pages; a non-ok response with status 404 returns the ids accumulated so
far; any other non-ok response throws `msg`. -/
def idSearchLoop (msg : List Char) :
    List PageResponse → List (List Char) → Except (List Char) (List (List Char))
  | [], ids => .ok ids
  | r :: rest, ids =>
    if r.ok then
      let ids2 := addIds ids r.data
      if r.has_more && r.next_page then idSearchLoop msg rest ids2
      else .ok ids2
    else if r.status = 404 then .ok ids
    else .error msg

/-- Model of `new Set` applied to the spread of two id sets: union with
first-occurrence order and deduplication. -/
def dedupUnion (a b : List (List Char)) : List (List Char) :=
  (a ++ b).foldl (fun acc x => if acc.contains x then acc else acc ++ [x]) []

/-- Model of `fetchInstantsFromSet`: run the main card search (a page-one
404 makes the whole function return the empty list at once), then the
special-guests card search (its 404 contributes an empty list), append the
two card lists, run the two counterspell id searches, union their ids, and
mark each card whose id is in the union. The four arguments are the
response chains the remote service produces for the four queries. -/
def fetchInstantsFromSet (main spg cs spgcs : List PageResponse) :
    Except (List Char) (List ScryfallCard) :=
  match cardSearchLoop failCardsMsg main [] with
  | .error e => .error e
  | .ok none => .ok []
  | .ok (some mainCards) =>
    match cardSearchLoop failSpgMsg spg [] with
    | .error e => .error e
    | .ok spgRes =>
      let allCards := mainCards ++ spgRes.getD []
      match idSearchLoop failCsMsg cs [] with
      | .error e => .error e
      | .ok ids1 =>
        match idSearchLoop failSpgCsMsg spgcs [] with
        | .error e => .error e
        | .ok ids2 =>
          let allCounterspellIds := dedupUnion ids1 ids2
          .ok (allCards.map fun card =>
            { card with isCounterspell := allCounterspellIds.contains card.id })

/-- Every non-ok response in the chain has status 404. -/
def only404Failures (pages : List PageResponse) : Bool :=
  pages.all fun r => r.ok || decide (r.status = 404)

/-- Model of a ScryfallSet record. `released_at` models the epoch time that
`new Date(set.released_at).getTime()` yields for the release-date string
(the conversion is strictly monotone in the date, so ordering by it is
ordering by release date). -/
structure ScryfallSet where
  id : List Char
  code : List Char
  name : List Char
  set_type : List Char
  released_at : ℤ
  card_count : ℕ
deriving DecidableEq

/-- Model of the single (non-paginated) response of the sets endpoint. -/
structure SetsResponse where
  ok : Bool
  data : List ScryfallSet
deriving DecidableEq

/-- Error message of `fetchSets`. -/
def failSetsMsg : List Char := "Failed to fetch sets".toList

/-- The fixed allow-list of set categories of `fetchSets`. -/
def validTypes : List (List Char) :=
  ["expansion".toList, "core".toList, "masters".toList,
   "draft_innovation".toList, "funny".toList]

/-- Model of `fetchSets`: on a non-ok response throw; otherwise filter the
sets to the allow-listed categories with positive card count and sort
descending by release date (the JS comparator subtracts times, and the
stable sort is modelled by `mergeSort`). -/
def fetchSets (resp : SetsResponse) : Except (List Char) (List ScryfallSet) :=
  if resp.ok then
    .ok (((resp.data.filter fun s =>
        validTypes.contains s.set_type && decide (0 < s.card_count))).mergeSort
          fun a b => decide (b.released_at ≤ a.released_at))
  else .error failSetsMsg

/-- Well-formed bracketed mana-symbol token: an open brace, a non-empty
content free of close braces, a close brace. -/
def IsToken (tok : List Char) : Prop :=
  ∃ c : List Char, c ≠ [] ∧ '}' ∉ c ∧ tok = '{' :: c ++ ['}']

/-- Test card builder: a card whose only relevant fields are a mana cost
and a converted mana cost. -/
def mkTestCard (mc : List Char) (cmc : ℚ) : ScryfallCard :=
  { id := ['i', 'd'], name := ['n'], mana_cost := mc, cmc := cmc,
    type_line := [], oracle_text := [], colors := [], color_identity := [],
    rarity := [], card_faces := [] }

/-- A card whose cost is the single Phyrexian symbol B slash P. -/
def phyrexianCard : ScryfallCard := mkTestCard ['{', 'B', '/', 'P', '}'] 1

/-- A card whose cost is the single generic/color hybrid symbol 2 slash G. -/
def twoHybridCard : ScryfallCard := mkTestCard ['{', '2', '/', 'G', '}'] 3

/-- A card with converted mana cost 3 and one Phyrexian symbol. -/
def phyTestCard : ScryfallCard := mkTestCard ['{', '2', '}', '{', 'B', '/', 'P', '}'] 3

/-- A card whose colors and color identity are non-empty and differ. -/
def coloredCard : ScryfallCard :=
  { mkTestCard ['{', 'U', '}'] 1 with colors := [['U']], color_identity := [['W'], ['U']] }

/-- The top-level cost string of a double-faced card: two bracketed symbols
separated by a space, two slashes and a space. -/
def multiFaceCost : List Char :=
  ['{', 'U', '}', ' ', '/', '/', ' ', '{', 'B', '}']

/-- A concrete card with id a. -/
def cardA : ScryfallCard := { mkTestCard ['{', 'G', '}'] 1 with id := ['a'] }

/-- A concrete card with id b. -/
def cardB : ScryfallCard := { mkTestCard ['{', 'U', '}'] 2 with id := ['b'] }

/-- A successful single last page carrying both concrete cards. -/
def pageMain : PageResponse :=
  { ok := true, status := 200, has_more := false, next_page := false,
    data := [cardA, cardB] }

/-- A successful single last page carrying only the second concrete card. -/
def pageCs : PageResponse :=
  { ok := true, status := 200, has_more := false, next_page := false,
    data := [cardB] }

/-- A successful first page announcing a next page. -/
def pageOneOk : PageResponse :=
  { ok := true, status := 200, has_more := true, next_page := true,
    data := [cardA] }

/-- A not-found response page. -/
def page404 : PageResponse :=
  { ok := false, status := 404, has_more := false, next_page := false, data := [] }

/-- A concrete allow-listed set with positive card count. -/
def setA : ScryfallSet :=
  { id := ['s'], code := ['s'], name := ['s'], set_type := "expansion".toList,
    released_at := 5, card_count := 10 }

/-! Helper lemmas. -/

/-- Inside an open token, scanning a close-brace-free content followed by a
close brace emits exactly one token and resumes outside. -/
theorem scanManaCost_inside (c : List Char) :
    ∀ (acc t : List Char), '}' ∉ c → acc ++ c ≠ [] →
      scanManaCost (c ++ '}' :: t) (some acc)
        = ('{' :: (acc ++ c) ++ ['}']) :: scanManaCost t none := by
  induction c with
  | nil =>
    intro acc t _ hacc
    rw [List.append_nil] at hacc
    simp [scanManaCost, hacc]
  | cons x c ih =>
    intro acc t hne hacc
    have hx : x ≠ '}' := fun h => hne (h ▸ List.mem_cons_self x c)
    have hxc : ('}' : Char) ∉ c := fun h => hne (List.mem_cons_of_mem x h)
    have : scanManaCost ((x :: c) ++ '}' :: t) (some acc)
        = scanManaCost (c ++ '}' :: t) (some (acc ++ [x])) := by
      simp [scanManaCost, hx]
    rw [this, ih (acc ++ [x]) t hxc (by simp)]
    simp

/-- Scanning a well-formed token followed by anything emits that token and
continues with the remainder. -/
theorem scanManaCost_token (tok t : List Char) (h : IsToken tok) :
    scanManaCost (tok ++ t) none = tok :: scanManaCost t none := by
  obtain ⟨c, hc, hne, rfl⟩ := h
  have h1 : ('{' :: c ++ ['}']) ++ t = '{' :: (c ++ '}' :: t) := by simp
  rw [h1]
  have h2 : scanManaCost ('{' :: (c ++ '}' :: t)) none
      = scanManaCost (c ++ '}' :: t) (some []) := by
    simp [scanManaCost]
  rw [h2, scanManaCost_inside c [] t hne (by simpa using hc)]
  simp

/-- Parsing a concatenation of well-formed tokens recovers the token list. -/
theorem parseManaSymbols_flatten (toks : List (List Char))
    (h : ∀ tok ∈ toks, IsToken tok) :
    parseManaSymbols toks.flatten = toks := by
  induction toks with
  | nil => rfl
  | cons tok toks ih =>
    rw [List.flatten_cons]
    have h1 : parseManaSymbols (tok ++ toks.flatten) = tok :: parseManaSymbols toks.flatten :=
      scanManaCost_token tok toks.flatten (h tok (List.mem_cons_self tok toks))
    rw [h1, ih fun t ht => h t (List.mem_cons_of_mem tok ht)]

/-- Membership after the deduplicating fold is membership in the seed or in
the folded list. -/
theorem mem_dedupFoldl (l : List (List Char)) :
    ∀ (acc : List (List Char)) (x : List Char),
      (x ∈ l.foldl (fun acc y => if acc.contains y then acc else acc ++ [y]) acc)
        ↔ x ∈ acc ∨ x ∈ l := by
  induction l with
  | nil => intro acc x; simp
  | cons y l ih =>
    intro acc x
    rw [List.foldl_cons]
    by_cases h : acc.contains y = true
    · rw [if_pos h, ih]
      have hy : y ∈ acc := by simpa [List.contains] using h
      simp only [List.mem_cons]
      constructor
      · rintro (hx | hx)
        · exact Or.inl hx
        · exact Or.inr (Or.inr hx)
      · rintro (hx | rfl | hx)
        · exact Or.inl hx
        · exact Or.inl hy
        · exact Or.inr hx
    · rw [if_neg h, ih]
      simp only [List.mem_append, List.mem_cons, List.not_mem_nil, or_false]
      tauto

/-- Containment in the deduplicated union is the decision of membership in
either operand. -/
theorem dedupUnion_contains (a b : List (List Char)) (x : List Char) :
    (dedupUnion a b).contains x = decide (x ∈ a ∨ x ∈ b) := by
  unfold dedupUnion
  have h := mem_dedupFoldl (a ++ b) [] x
  simp only [List.not_mem_nil, false_or, List.mem_append] at h
  show List.elem x _ = _
  rw [List.elem_eq_mem]
  exact decide_eq_decide.mpr h

/-- Containment in a list is preserved by list inclusion. -/
theorem contains_mono {A B : List (List Char)} (hAB : A ⊆ B) (x : List Char)
    (hx : A.contains x = true) : B.contains x = true := by
  have : x ∈ A := by simpa [List.contains] using hx
  simpa [List.contains] using hAB this

/-- A payable symbol stays payable when the available colors grow. -/
theorem symbolPayable_mono {A B : List (List Char)} (hAB : A ⊆ B)
    (content : List Char) (h : symbolPayable content A = true) :
    symbolPayable content B = true := by
  unfold symbolPayable at h ⊢
  split_ifs at h ⊢ with h1 h2 h3 h4
  · rfl
  · dsimp only at h ⊢
    by_cases hcp : List.filter isColorStr (splitSlash content) ≠ []
    · rw [if_pos hcp] at h ⊢
      rw [List.any_eq_true] at h ⊢
      obtain ⟨c, hc, hcA⟩ := h
      exact ⟨c, hc, contains_mono hAB c hcA⟩
    · rw [if_neg hcp]
  · rfl
  · exact contains_mono hAB content h
  · rfl

/-! Claim theorems. -/

/-- C1: the claim says a Phyrexian symbol such as B slash P is payable for
every availableColors set, the empty set included. The code disagrees: the
symbol contains a slash, so it is handled by the hybrid branch, whose
single-color part B must be available; with no colors available the card is
reported not castable. This evaluation exhibits the divergence on the card
whose whole cost is the one Phyrexian symbol. -/
theorem c1_phyrexian_empty_colors_not_castable :
    isCardCastableWithColors phyrexianCard [] = false := by decide

/-- C2: the claim says a generic/color hybrid symbol such as 2 slash G is
payable for every availableColors set. The code disagrees: the symbol is
handled by the hybrid branch, whose single-color part G must be available,
so with only W available the card is reported not castable. -/
theorem c2_generic_hybrid_without_color_not_castable :
    isCardCastableWithColors twoHybridCard [['W']] = false := by decide

/-- C3: `cardMatchesManaValue` matches target 10 exactly on floor cmc at
least 10 independently of the Phyrexian count, matches any other target
exactly when it lies between floor cmc minus the Phyrexian count and floor
cmc, and on a card with cmc 3 and one Phyrexian symbol accepts targets 2
and 3 and rejects 0, 1 and 4. -/
theorem c3_cardMatchesManaValue_range (card : ScryfallCard) (target : ℚ) :
    (cardMatchesManaValue card 10 = true ↔ 10 ≤ Rat.floor card.cmc)
    ∧ (target ≠ 10 →
        (cardMatchesManaValue card target = true ↔
          ((Rat.floor card.cmc : ℚ) - (countPhyrexianMana card : ℚ) ≤ target
            ∧ target ≤ (Rat.floor card.cmc : ℚ))))
    ∧ (cardMatchesManaValue phyTestCard 2 = true
        ∧ cardMatchesManaValue phyTestCard 3 = true
        ∧ cardMatchesManaValue phyTestCard 0 = false
        ∧ cardMatchesManaValue phyTestCard 1 = false
        ∧ cardMatchesManaValue phyTestCard 4 = false) := by
  refine ⟨?_, ?_, by decide, by decide, by decide, by decide, by decide⟩
  · unfold cardMatchesManaValue
    rw [if_pos rfl]
    exact decide_eq_true_iff
  · intro hne
    unfold cardMatchesManaValue
    rw [if_neg hne, Bool.and_eq_true, decide_eq_true_iff, decide_eq_true_iff]
    constructor
    · rintro ⟨hlo, hhi⟩
      refine ⟨?_, hhi⟩
      rw [Int.cast_sub] at hlo
      simpa using hlo
    · rintro ⟨hlo, hhi⟩
      refine ⟨?_, hhi⟩
      rw [Int.cast_sub]
      simpa using hlo

/-- Witness for C3 at the concrete Phyrexian test card and target 2. -/
theorem c3_cardMatchesManaValue_range_witness :
    cardMatchesManaValue phyTestCard 2 = true :=
  ((c3_cardMatchesManaValue_range phyTestCard 2).2.1 (by norm_num)).mpr
    (by
      rw [show Rat.floor phyTestCard.cmc = 3 from by decide,
        show countPhyrexianMana phyTestCard = 1 from by decide]
      norm_num)

/-- C8: `getCardColors` returns the colors list when non-empty, else the
color identity when non-empty, else the colorless singleton, and is in all
cases non-empty. -/
theorem c8_getCardColors_fallback (card : ScryfallCard) :
    (card.colors ≠ [] → getCardColors card = card.colors)
    ∧ (card.colors = [] → card.color_identity ≠ [] →
        getCardColors card = card.color_identity)
    ∧ (card.colors = [] → card.color_identity = [] → getCardColors card = [['C']])
    ∧ getCardColors card ≠ [] := by
  unfold getCardColors
  by_cases h1 : card.colors = [] <;> by_cases h2 : card.color_identity = [] <;>
    simp [h1, h2]

/-- Witness for C8 at a card with distinct non-empty colors and identity. -/
theorem c8_getCardColors_fallback_witness :
    getCardColors coloredCard = coloredCard.colors :=
  (c8_getCardColors_fallback coloredCard).1 (by decide)

/-- C9 counterexample: on the cost string of a double-faced card, which
contains a face separator between the bracketed symbols, re-joining the
parsed tokens does not reconstruct the original string. -/
theorem c9_roundtrip_counterexample :
    (parseManaSymbols multiFaceCost).flatten ≠ multiFaceCost := by decide

/-- C9 (amended): for every mana cost string that is a concatenation of
well-formed bracketed symbol tokens, concatenating the tokens returned by
`parseManaSymbols`, in order, reconstructs the original cost string. -/
theorem c9_parse_flatten_roundtrip (toks : List (List Char))
    (h : ∀ tok ∈ toks, IsToken tok) :
    (parseManaSymbols toks.flatten).flatten = toks.flatten := by
  rw [parseManaSymbols_flatten toks h]

/-- Witness for C9 on the concrete two-symbol cost of one white and a
generic ten. -/
theorem c9_parse_flatten_roundtrip_witness :
    (parseManaSymbols ([['{', 'W', '}'], ['{', '1', '0', '}']]).flatten).flatten
      = ([['{', 'W', '}'], ['{', '1', '0', '}']]).flatten :=
  c9_parse_flatten_roundtrip [['{', 'W', '}'], ['{', '1', '0', '}']] (by
    intro t ht
    simp only [List.mem_cons, List.not_mem_nil, or_false] at ht
    rcases ht with h | h
    · exact ⟨['W'], by decide, by decide, by rw [h]; rfl⟩
    · exact ⟨['1', '0'], by decide, by decide, by rw [h]; rfl⟩)

/-- C10: `isCardCastableWithColors` is monotone in the available colors:
enlarging the color list can only keep a castable card castable. -/
theorem c10_castable_monotone (card : ScryfallCard) (A B : List (List Char))
    (hAB : A ⊆ B) (h : isCardCastableWithColors card A = true) :
    isCardCastableWithColors card B = true := by
  unfold isCardCastableWithColors at h ⊢
  by_cases hmc : resolveManaCost card = []
  · simp [hmc]
  · rw [if_neg hmc] at h ⊢
    rw [List.all_eq_true] at h ⊢
    intro s hs
    exact symbolPayable_mono hAB _ (h s hs)

/-- Witness for C10: the Phyrexian card is castable with B available and
stays castable after adding G. -/
theorem c10_castable_monotone_witness :
    isCardCastableWithColors phyrexianCard [['B'], ['G']] = true :=
  c10_castable_monotone phyrexianCard [['B']] [['B'], ['G']]
    (by intro x hx; simp only [List.mem_cons, List.not_mem_nil, or_false] at hx ⊢; tauto)
    (by decide)

/-- A card search whose every non-ok page is a 404 never throws. -/
theorem cardSearchLoop_only404 (msg : List Char) (pages : List PageResponse)
    (h : only404Failures pages = true) :
    ∀ acc, ∃ v, cardSearchLoop msg pages acc = .ok v := by
  induction pages with
  | nil => exact fun acc => ⟨some acc, rfl⟩
  | cons r rest ih =>
    intro acc
    rw [only404Failures, List.all_cons, Bool.and_eq_true] at h
    obtain ⟨hr, hrest⟩ := h
    have hrest' : only404Failures rest = true := hrest
    by_cases hok : r.ok = true
    · by_cases hm : (r.has_more && r.next_page) = true
      · obtain ⟨v, hv⟩ := ih hrest' (acc ++ r.data)
        exact ⟨v, by simp only [cardSearchLoop, hok, if_true, hm]; exact hv⟩
      · exact ⟨some (acc ++ r.data), by simp [cardSearchLoop, hok, hm]⟩
    · have h404 : r.status = 404 := by
        rw [Bool.or_eq_true] at hr
        rcases hr with h | h
        · exact absurd h hok
        · exact of_decide_eq_true h
      exact ⟨none, by simp [cardSearchLoop, hok, h404]⟩

/-- An id search whose every non-ok page is a 404 never throws. -/
theorem idSearchLoop_only404 (msg : List Char) (pages : List PageResponse)
    (h : only404Failures pages = true) :
    ∀ ids, ∃ v, idSearchLoop msg pages ids = .ok v := by
  induction pages with
  | nil => exact fun ids => ⟨ids, rfl⟩
  | cons r rest ih =>
    intro ids
    rw [only404Failures, List.all_cons, Bool.and_eq_true] at h
    obtain ⟨hr, hrest⟩ := h
    have hrest' : only404Failures rest = true := hrest
    by_cases hok : r.ok = true
    · by_cases hm : (r.has_more && r.next_page) = true
      · obtain ⟨v, hv⟩ := ih hrest' (addIds ids r.data)
        exact ⟨v, by simp only [idSearchLoop, hok, if_true, hm]; exact hv⟩
      · exact ⟨addIds ids r.data, by simp [idSearchLoop, hok, hm]⟩
    · have h404 : r.status = 404 := by
        rw [Bool.or_eq_true] at hr
        rcases hr with h | h
        · exact absurd h hok
        · exact of_decide_eq_true h
      exact ⟨ids, by simp [idSearchLoop, hok, h404]⟩

/-- C4 counterexample: the main search's first page succeeds with one card
and announces a next page; the second page is a 404. The claim says this
must surface as a thrown error, but `fetchInstantsFromSet` returns the
empty collection without error. -/
theorem c4_later_page_notfound_counterexample :
    fetchInstantsFromSet [pageOneOk, page404] [] [] [] = Except.ok [] := rfl

/-- C4 (amended): a non-ok response with status 404 on any page, first or
later, early-stops the query without error — the card loops return the
empty collection marker and the id loops return the ids accumulated so far
— while any other non-ok status throws; a 404-terminated main card search
makes `fetchInstantsFromSet` return the empty list. -/
theorem c4_amended_notfound_early_stop (msg : List Char) (r : PageResponse)
    (rest main spg cs spgcs : List PageResponse)
    (acc : List ScryfallCard) (ids : List (List Char)) (hok : r.ok = false) :
    (r.status = 404 →
        cardSearchLoop msg (r :: rest) acc = .ok none
        ∧ idSearchLoop msg (r :: rest) ids = .ok ids)
    ∧ (r.status ≠ 404 →
        cardSearchLoop msg (r :: rest) acc = .error msg
        ∧ idSearchLoop msg (r :: rest) ids = .error msg)
    ∧ (cardSearchLoop failCardsMsg main [] = .ok none →
        fetchInstantsFromSet main spg cs spgcs = .ok []) := by
  refine ⟨fun h404 => ⟨?_, ?_⟩, fun hne => ⟨?_, ?_⟩, fun hmain => ?_⟩
  · simp [cardSearchLoop, hok, h404]
  · simp [idSearchLoop, hok, h404]
  · simp [cardSearchLoop, hok, hne]
  · simp [idSearchLoop, hok, hne]
  · unfold fetchInstantsFromSet
    rw [hmain]

/-- Witness for C4 (amended): a 404 page makes the id loop return the ids
gathered so far without error. -/
theorem c4_amended_notfound_early_stop_witness :
    idSearchLoop failCsMsg [page404] [] = Except.ok [] :=
  ((c4_amended_notfound_early_stop failCsMsg page404 [] [] [] [] [] [] []
    rfl).1 rfl).2

/-- C5: on any successful run, the cards returned by `fetchInstantsFromSet`
are exactly the fetched cards with `isCounterspell` set to whether the
card's id is in the union of the two counterspell id sets, all other
fields unchanged. -/
theorem c5_counterspell_flag (main spg cs spgcs : List PageResponse)
    (mainCards : List ScryfallCard) (spgRes : Option (List ScryfallCard))
    (ids1 ids2 : List (List Char))
    (hmain : cardSearchLoop failCardsMsg main [] = .ok (some mainCards))
    (hspg : cardSearchLoop failSpgMsg spg [] = .ok spgRes)
    (hcs : idSearchLoop failCsMsg cs [] = .ok ids1)
    (hspgcs : idSearchLoop failSpgCsMsg spgcs [] = .ok ids2) :
    fetchInstantsFromSet main spg cs spgcs =
      .ok ((mainCards ++ spgRes.getD []).map fun card =>
        { card with isCounterspell := decide (card.id ∈ ids1 ∨ card.id ∈ ids2) }) := by
  unfold fetchInstantsFromSet
  rw [hmain, hspg, hcs, hspgcs]
  dsimp only
  simp only [dedupUnion_contains ids1 ids2]

/-- Witness for C5: the main page returns cards a and b, the counterspell
query returns only b, so b alone is flagged. -/
theorem c5_counterspell_flag_witness :
    fetchInstantsFromSet [pageMain] [] [pageCs] [] =
      Except.ok (([cardA, cardB] ++ (some ([] : List ScryfallCard)).getD []).map
        fun card =>
          { card with
            isCounterspell := decide (card.id ∈ [['b']] ∨ card.id ∈ ([] : List (List Char))) }) :=
  c5_counterspell_flag [pageMain] [] [pageCs] [] [cardA, cardB] (some []) [['b']] []
    rfl rfl rfl rfl

/-- C6: a 404 on the first page of the main card search makes
`fetchInstantsFromSet` return the empty sequence with no error, and when
every non-success page of all four searches is a 404 the whole function
returns successfully. -/
theorem c6_notfound_never_fails (main spg cs spgcs rest : List PageResponse)
    (r : PageResponse) :
    (r.ok = false → r.status = 404 →
        fetchInstantsFromSet (r :: rest) spg cs spgcs = .ok [])
    ∧ (only404Failures main = true → only404Failures spg = true →
        only404Failures cs = true → only404Failures spgcs = true →
        ∃ out, fetchInstantsFromSet main spg cs spgcs = .ok out) := by
  constructor
  · intro hok h404
    have hloop : cardSearchLoop failCardsMsg (r :: rest) [] = .ok none := by
      simp [cardSearchLoop, hok, h404]
    unfold fetchInstantsFromSet
    rw [hloop]
  · intro h1 h2 h3 h4
    obtain ⟨v, hv⟩ := cardSearchLoop_only404 failCardsMsg main h1 []
    obtain ⟨w, hw⟩ := cardSearchLoop_only404 failSpgMsg spg h2 []
    obtain ⟨i1, hi1⟩ := idSearchLoop_only404 failCsMsg cs h3 []
    obtain ⟨i2, hi2⟩ := idSearchLoop_only404 failSpgCsMsg spgcs h4 []
    cases v with
    | none =>
      refine ⟨[], ?_⟩
      unfold fetchInstantsFromSet
      rw [hv]
    | some mainCards =>
      refine ⟨(mainCards ++ w.getD []).map fun card =>
        { card with isCounterspell := (dedupUnion i1 i2).contains card.id }, ?_⟩
      unfold fetchInstantsFromSet
      rw [hv, hw, hi1, hi2]

/-- Witness for C6: a first-page 404 on the main search yields the empty
list without error. -/
theorem c6_notfound_never_fails_witness :
    fetchInstantsFromSet [page404] [] [] [] = Except.ok [] :=
  (c6_notfound_never_fails [] [] [] [] [] page404).1 rfl rfl

/-- C7: on any successful run, every set returned by `fetchSets` has an
allow-listed category and a positive card count, the output is ordered
descending by release date, and every qualifying set of the response
appears in the output. -/
theorem c7_fetchSets_filter_sorted (resp : SetsResponse) (out : List ScryfallSet)
    (h : fetchSets resp = .ok out) :
    (∀ s ∈ out, validTypes.contains s.set_type = true ∧ 0 < s.card_count)
    ∧ List.Pairwise (fun a b => b.released_at ≤ a.released_at) out
    ∧ (∀ s ∈ resp.data, validTypes.contains s.set_type = true →
        0 < s.card_count → s ∈ out) := by
  unfold fetchSets at h
  by_cases hok : resp.ok = true
  · rw [if_pos hok] at h
    injection h with h
    subst h
    refine ⟨?_, ?_, ?_⟩
    · intro s hs
      rw [List.mem_mergeSort, List.mem_filter] at hs
      obtain ⟨-, hf⟩ := hs
      rw [Bool.and_eq_true, decide_eq_true_iff] at hf
      exact hf
    · have hs := @List.sorted_mergeSort ScryfallSet
        (fun a b : ScryfallSet => decide (b.released_at ≤ a.released_at))
        (fun a b c hab hbc => by
          rw [decide_eq_true_iff] at hab hbc ⊢
          exact le_trans hbc hab)
        (fun a b => by
          rcases le_total a.released_at b.released_at with hle | hle <;> simp [hle])
        (List.filter (fun s =>
          validTypes.contains s.set_type && decide (0 < s.card_count)) resp.data)
      exact hs.imp fun hab => decide_eq_true_iff.mp hab
    · intro s hs ht hc
      rw [List.mem_mergeSort, List.mem_filter]
      exact ⟨hs, by rw [Bool.and_eq_true, decide_eq_true_iff]; exact ⟨ht, hc⟩⟩
  · rw [if_neg hok] at h
    exact absurd h (by simp)

/-- Witness for C7 at a one-set response. -/
theorem c7_fetchSets_filter_sorted_witness :
    List.Pairwise (fun a b : ScryfallSet => b.released_at ≤ a.released_at) [setA] :=
  (c7_fetchSets_filter_sorted ⟨true, [setA]⟩ [setA] (by
    unfold fetchSets
    rw [if_pos rfl]
    rw [show List.filter (fun s =>
        validTypes.contains s.set_type && decide (0 < s.card_count)) [setA]
          = [setA] from rfl]
    rw [List.mergeSort_singleton])).2.1

end MtgCounterplay
